import Mathlib

/-!
Verification of flask-pydantic-api's model-inference and request-dispatch core.

This file shallowly embeds the relevant parts of the package:
  * `utils.py`: `is_union`, `is_union_of_model_sublclasses`, `get_annotated_models`,
    `model_has_uploaded_file_type`, `unindent_text`;
  * `api_wrapper.py`: `get_request_args` and the success-status-code selection in
    `pydantic_api`;
  * `openapi.py`: the request-body content-type choice and the per-status
    registration of response-model schemas in `get_pydantic_api_path_operations`,
    and the shape of `get_openapi_schema`;
  * `apidocs_views.py`: `get_openapi_spec`.

Python dicts are modelled as association lists with unique keys (insertion
preserving order, replacement in place), Python classes deriving from
pydantic's `BaseModel` as the structure `PModel`, and type hints as the
inductive `TypeAnn`.  Exceptions and `flask.abort` are modelled with `Except`.
-/

/-! ### Python dict operations (association lists, insertion ordered) -/

/-- `d[k]`/`d.get(k)`: first binding of `k` in the association list. -/
def dlookup {α : Type} : List (String × α) → String → Option α
  | [], _ => none
  | (k', v) :: rest, k => if k' = k then some v else dlookup rest k

/-- `d[k] = v`: replace the binding in place if present, else append. -/
def dinsert {α : Type} : List (String × α) → String → α → List (String × α)
  | [], k, v => [(k, v)]
  | (k', v') :: rest, k, v =>
    if k' = k then (k', v) :: rest else (k', v') :: dinsert rest k v

/-- `d.update(src)`: insert every binding of `src`, in order. -/
def dupdate {α : Type} (d src : List (String × α)) : List (String × α) :=
  src.foldl (fun acc kv => dinsert acc kv.1 kv.2) d

/-- `d.pop(k, None)`: remove the binding of `k` (dict keys are unique). -/
def dpop {α : Type} (d : List (String × α)) (k : String) : List (String × α) :=
  d.filter (fun kv => kv.1 != k)

/-! ### Data model: pydantic models and their relevant field shapes -/

/-- The `get_origin` result of a field's type hint, as far as
`get_request_args` inspects it (`isclass(origin)` and
`issubclass(origin, (list, set, frozenset, dict))`). -/
inductive ContainerOrigin where
  | listO
  | setO
  | frozensetO
  | dictO
  | otherClassO (name : String)
  | nonClassO (name : String)
deriving DecidableEq

/-- A pydantic field's type hint, as far as the embedded code inspects it:
equal to the `UploadedFile` class, a generic type with some origin, a plain
type (where `get_origin` gives `None`), or the (falsy) `None` hint. -/
inductive FieldAnn where
  | uploadedFile
  | generic (origin : ContainerOrigin)
  | plain (name : String)
  | noneF
deriving DecidableEq

/-- A class deriving from pydantic `BaseModel`: its `__name__`, its
`model_config["title"]` if set, and `model_fields` (name, type hint). -/
structure PModel where
  name : String
  config_title : Option String := none
  fields : List (String × FieldAnn) := []
deriving DecidableEq

/-- utils.py lines 127-132, `model_has_uploaded_file_type`: whether any field's
hint equals the `UploadedFile` class. -/
def model_has_uploaded_file_type (model : PModel) : Bool :=
  model.fields.any (fun field => field.2 == FieldAnn.uploadedFile)

/-! ### The incoming request, as read by `get_request_args` -/

/-- An opaque Python value carried through the request dicts. -/
inductive PyVal where
  | str (s : String)
  | file (filename : String)
  | vlist (elems : List PyVal)

/-- `request.json`, when `request.is_json`: either a JSON object (dict) or some
non-dict value (with its Python truthiness and type name). -/
inductive JsonBody where
  | jdict (entries : List (String × PyVal))
  | jother (truthiness : Bool) (type_name : String)

/-- A matched werkzeug URL rule (`request.url_rule`): its converter arguments. -/
structure UrlRule where
  arguments : List String

/-- The parts of the Flask `request` proxy read by `get_request_args`.
`json_body = none` models a body that fails JSON decoding (access raises 400).
`content_length` of `None` is modelled as `0` (both falsy). -/
structure Req where
  mimetype : String
  files : List (String × PyVal) := []
  form : List (String × PyVal) := []
  is_json : Bool := false
  content_length : Nat := 0
  json_body : Option JsonBody := none
  query_string : String := ""
  args_flat : List (String × PyVal) := []
  args_multi : List (String × PyVal) := []
  url_rule : Option UrlRule := none

/-- Python `str.lower` (character-wise). -/
def pyLower (s : List Char) : List Char := s.map Char.toLower

/-- api_wrapper.py lines 53-55: `(request.mimetype or "").lower().startswith("multipart/form-data")`. -/
def request_is_multipart (req : Req) : Bool :=
  "multipart/form-data".data.isPrefixOf (pyLower req.mimetype.data)

/-! ### api_wrapper.py `get_request_args` (lines 44-117) -/

/-- api_wrapper.py lines 58-62: `len(for_models) == 1 and
model_has_uploaded_file_type(for_models[0]) and not request_is_multipart`. -/
def singleModelNeedsMultipart (for_models : List PModel) (multipart : Bool) : Bool :=
  match for_models with
  | [m] => model_has_uploaded_file_type m && !multipart
  | _ => false

/-- api_wrapper.py lines 57-76: the request-model selection.  The `for` loop on
lines 66-73 picks the first model that either lacks an `UploadedFile` field or
has one while the request is multipart; `abort(415, ...)` otherwise. -/
def select_request_model (req : Req) (for_models : Option (List PModel)) :
    Except (Nat × String) (Option PModel) :=
  match for_models with
  | none => .ok none
  | some fms =>
    if fms.isEmpty then .ok none
    else if singleModelNeedsMultipart fms (request_is_multipart req) then
      .error (415, "multipart/form-data expected")
    else
      match fms.find? (fun m => !model_has_uploaded_file_type m || request_is_multipart req) with
      | some m => .ok (some m)
      | none => .error (415, "Could not match request to a required model")

/-- The `json.truthiness` of the parsed body (`{}`/`[]`/`0`/`None` are falsy). -/
def jsonTruthy : JsonBody → Bool
  | .jdict entries => !entries.isEmpty
  | .jother t _ => t

/-- api_wrapper.py lines 94-101: the filter on multi-valued query parameters:
`k in request_model.model_fields` and the field hint has a truthy `get_origin`
that is a class and a subclass of `(list, set, frozenset, dict)`. -/
def multi_query_key_ok (m : PModel) (k : String) : Bool :=
  match dlookup m.fields k with
  | some (.generic .listO) => true
  | some (.generic .setO) => true
  | some (.generic .frozensetO) => true
  | some (.generic .dictO) => true
  | _ => false

/-- api_wrapper.py lines 89-102: the `elif request.query_string:` branch, also
reached when the earlier branches fail; the final `args` when neither
multipart nor truthy-JSON applies. -/
def query_args_step (req : Req) (request_model : Option PModel) :
    List (String × PyVal) :=
  if req.query_string != "" then
    let base := dupdate [] req.args_flat
    match request_model with
    | some m => dupdate base (req.args_multi.filter (fun kv => multi_query_key_ok m kv.1))
    | none => base
  else []

/-- api_wrapper.py lines 78-102: building `args` from the body/query. -/
def build_request_args (req : Req) (request_model : Option PModel) :
    Except (Nat × String) (List (String × PyVal)) :=
  if request_is_multipart req then
    .ok (dupdate [] (req.files ++ req.form))
  else if req.is_json && req.content_length != 0 then
    match req.json_body with
    | none => .error (400, "Failed to decode JSON object")
    | some body =>
      if jsonTruthy body then
        match body with
        | .jdict entries => .ok (dupdate [] entries)
        | .jother _ tn =>
          .error (400, "JSON request bodies must be a dictionary, not a " ++ tn)
      else .ok (query_args_step req request_model)
  else .ok (query_args_step req request_model)

/-- api_wrapper.py lines 104-115: merge path arguments into the request data
when wanted, and pop every rule argument from the view kwargs. -/
def merge_path_args (args view_kwargs : List (String × PyVal))
    (url_rule : Option UrlRule) (merge_path_parameters : Bool) :
    List (String × PyVal) × List (String × PyVal) :=
  match url_rule with
  | some rule =>
    if merge_path_parameters && !view_kwargs.isEmpty && !rule.arguments.isEmpty then
      (dupdate args (view_kwargs.filter (fun kv => rule.arguments.contains kv.1)),
       rule.arguments.foldl (fun d a => dpop d a) view_kwargs)
    else (args, view_kwargs)
  | none => (args, view_kwargs)

/-- api_wrapper.py lines 44-117, `get_request_args`.  The
`request_model_param_name` parameter is accepted and never read, as in the
source. -/
def get_request_args (req : Req) (view_kwargs : List (String × PyVal))
    (for_models : Option (List PModel)) (merge_path_parameters : Bool)
    (_request_model_param_name : Option String) :
    Except (Nat × String)
      (List (String × PyVal) × List (String × PyVal) × Option PModel) :=
  match select_request_model req for_models with
  | .error e => .error e
  | .ok request_model =>
    match build_request_args req request_model with
    | .error e => .error e
    | .ok args =>
      let merged := merge_path_args args view_kwargs req.url_rule merge_path_parameters
      .ok (merged.1, merged.2, request_model)

/-! ### utils.py `get_annotated_models` (lines 58-120) -/

/-- A Python type hint as stored in `func.__annotations__`, as far as
`get_annotated_models` inspects it: the (falsy) `None` hint, a class that is a
`BaseModel` subclass, some other class, a non-class hint, or a union. -/
inductive TypeAnn where
  | noneLit
  | model (m : PModel)
  | otherClass (name : String)
  | nonClass (name : String)
  | union (args : List TypeAnn)

/-- Python truthiness of a type hint (`None` is falsy, everything else truthy). -/
def truthyA : TypeAnn → Bool
  | .noneLit => false
  | _ => true

/-- `inspect.isclass`. -/
def isclassA : TypeAnn → Bool
  | .model _ => true
  | .otherClass _ => true
  | _ => false

/-- `issubclass(v, BaseModel)` (only meaningful on classes). -/
def is_basemodel_subclass : TypeAnn → Bool
  | .model _ => true
  | _ => false

/-- utils.py lines 58-59, `is_union`: `get_origin(value) in {Union, UnionType}`. -/
def is_union : TypeAnn → Bool
  | .union _ => true
  | _ => false

/-- `typing.get_args` (empty on non-unions, which is all the source uses). -/
def get_args_of : TypeAnn → List TypeAnn
  | .union args => args
  | _ => []

/-- utils.py lines 62-66, `is_union_of_model_sublclasses` (source spelling):
false on non-unions, else `all(isclass(v) and issubclass(v, BaseModel) ...)`. -/
def is_union_of_model_sublclasses (value : TypeAnn) : Bool :=
  is_union value && (get_args_of value).all (fun v => isclassA v && is_basemodel_subclass v)

/-- utils.py lines 78-87: the filter building `view_model_args` — the names of
the non-`return` parameters with a truthy hint that is a `BaseModel` subclass
or a union of such subclasses. -/
def view_model_args (anns : List (String × TypeAnn)) : List String :=
  (anns.filter (fun kv =>
    truthyA kv.2 && kv.1 != "return" &&
      ((isclassA kv.2 && is_basemodel_subclass kv.2) || is_union_of_model_sublclasses kv.2))).map
    Prod.fst

/-- utils.py lines 99-103 and 111-115: `[a for a in get_args(x) if isclass(a)
and issubclass(a, BaseModel)]`. -/
def modelsOfUnionArgs (args : List TypeAnn) : List PModel :=
  args.filterMap (fun a =>
    match a with
    | .model m => some m
    | _ => none)

/-- utils.py lines 98-106 and 110-118 (the same branch appears for the request
hint and for the return hint): a union keeps its `BaseModel` members, a
`BaseModel` subclass becomes a singleton, anything else gives `None`. -/
def models_of_truthy_hint (ra : TypeAnn) : Option (List PModel) :=
  if is_union ra then some (modelsOfUnionArgs (get_args_of ra))
  else
    match ra with
    | .model m => some [m]
    | _ => none

/-- utils.py lines 108-118: `return_annotation = func.__annotations__.get("return")`
followed by the truthiness check and the union/subclass branch. -/
def response_models_of (anns : List (String × TypeAnn)) : Option (List PModel) :=
  match dlookup anns "return" with
  | some ra => if truthyA ra then models_of_truthy_hint ra else none
  | none => none

/-- utils.py lines 69-120, `get_annotated_models`, on the handler's
`__annotations__` dict.  Returns `(request_model_param_name, request_models,
response_models)`; raises (lines 89-93) when more than one parameter qualifies. -/
def get_annotated_models (anns : List (String × TypeAnn)) :
    Except String (Option String × Option (List PModel) × Option (List PModel)) :=
  match view_model_args anns with
  | _ :: _ :: _ =>
    .error "Too many model arguments specified. Could not determine which to map to request body"
  | [k] =>
    match dlookup anns k with
    | some ra =>
      if truthyA ra then .ok (some k, models_of_truthy_hint ra, response_models_of anns)
      else .ok (none, none, response_models_of anns)
    | none => .ok (none, none, response_models_of anns)
  | [] => .ok (none, none, response_models_of anns)

/-- Well-formedness of a Python type hint: a real `typing.Union`/`UnionType`
value always has at least two member types (single-member unions collapse). -/
def hintWF : TypeAnn → Bool
  | .union args => 2 <= args.length
  | _ => true

/-! ### Status-code selection: dispatcher (api_wrapper.py) vs OpenAPI (openapi.py) -/

/-- Dict lookup keyed by model class (`success_status_code_by_response_model.get`). -/
def mget (bm : List (PModel × Nat)) (m : PModel) : Option Nat :=
  (bm.find? (fun p => p.1 == m)).map (fun p => p.2)

/-- api_wrapper.py lines 209-213: the status code attached to a successful
response whose result is an instance of `result_class`; the
`success_status_code_by_response_model` dict applies only when truthy. -/
def dispatch_success_status_code (success_status_code : Nat)
    (success_status_code_by_response_model : Option (List (PModel × Nat)))
    (result_class : PModel) : Nat :=
  match success_status_code_by_response_model with
  | some bm =>
    if !bm.isEmpty then (mget bm result_class).getD success_status_code
    else success_status_code
  | none => success_status_code

/-- openapi.py lines 49 and 127-133: `success_status_code =
str(view_func_config.success_status_code)`, then per response model
`status_code = str(success_status_code_by_response_model.get(response_model,
success_status_code))` when that dict is truthy. -/
def openapi_response_status_code (config_success_status_code : Nat)
    (success_status_code_by_response_model : Option (List (PModel × Nat)))
    (response_model : PModel) : String :=
  let success_status_code := toString config_success_status_code
  match success_status_code_by_response_model with
  | some bm =>
    if !bm.isEmpty then
      match mget bm response_model with
      | some c => toString c
      | none => success_status_code
    else success_status_code
  | none => success_status_code

/-- openapi.py lines 115-117: `model.model_config.get("title") or model.__name__`. -/
def model_title (m : PModel) : String :=
  match m.config_title with
  | some t => if t != "" then t else m.name
  | none => m.name

/-- openapi.py lines 135-167, projected onto which schema titles end up
registered under which status code: an existing status key gets the title
appended (the `oneOf` branch), a fresh key gets a singleton entry. -/
def add_response_titles (responses : List (String × List String))
    (status_code title : String) : List (String × List String) :=
  match dlookup responses status_code with
  | some ts => dinsert responses status_code (ts ++ [title])
  | none => dinsert responses status_code [title]

/-- openapi.py lines 113-167: the `responses` dict built for one operation,
projected onto status-code keys and the model titles registered under each. -/
def openapi_build_responses (config_success_status_code : Nat)
    (success_status_code_by_response_model : Option (List (PModel × Nat)))
    (response_models : List PModel) : List (String × List String) :=
  response_models.foldl
    (fun rs m =>
      add_response_titles rs
        (openapi_response_status_code config_success_status_code
          success_status_code_by_response_model m)
        (model_title m))
    []

/-- openapi.py lines 69-73: the request-body content type documented for a
request model. -/
def openapi_request_content_type (request_model : PModel) : String :=
  if model_has_uploaded_file_type request_model then "multipart/form-data"
  else "application/json"

/-! ### openapi.py `get_openapi_schema` and apidocs_views.py `get_openapi_spec` -/

/-- A Python value as far as the apidocs view inspects one: a builtin `str`,
`dict` or `list`. -/
inductive PyObj where
  | pstr (s : String)
  | pdict (entries : List (String × PyObj))
  | plist (elems : List PyObj)

/-- A raised Python exception, by kind. -/
inductive PyExc where
  | nameError (missing : String)
  | attributeError (type_name attr : String)
deriving DecidableEq

/-- `type(obj).__name__` for the builtin values above. -/
def py_type_name : PyObj → String
  | .pstr _ => "str"
  | .pdict _ => "dict"
  | .plist _ => "list"

/-- Whether Python attribute lookup of `model_dump_json` succeeds: builtin
`str`/`dict`/`list` values have no such attribute (only pydantic `BaseModel`
instances define it). -/
def hasattr_model_dump_json : PyObj → Bool
  | _ => false

/-- openapi.py lines 290-320, `get_openapi_schema`, at the call
`get_openapi_schema()` made by the apidocs view (default `schema_generator`,
no kwargs — so lines 300-306 are skipped and line 309 adds `servers`).
`fieldset_schema_importable` records whether the module-level optional import
of `FieldsetGenerateJsonSchema` (lines 16-22) succeeded; when it failed, the
name is undefined and line 293 raises a `NameError`.  `paths` and `components`
stand for the pair computed by `get_pydantic_api_path_operations`. -/
def get_openapi_schema (fieldset_schema_importable : Bool)
    (paths components : PyObj) : Except PyExc PyObj :=
  if !fieldset_schema_importable then .error (.nameError "FieldsetGenerateJsonSchema")
  else
    .ok (.pdict
      [("openapi", .pstr "3.1.0"),
       ("info", .pdict [("title", .pstr "API Documentation"), ("version", .pstr "0.1")]),
       ("paths", paths),
       ("components", .pdict [("schemas", components)]),
       ("servers", .plist [.pdict [("url", .pstr "/")]])])

/-- apidocs_views.py lines 12-21, `get_openapi_spec`: call
`get_openapi_schema()` and then `spec.model_dump_json(...)`; the attribute
lookup on the returned value decides success. -/
def get_openapi_spec (fieldset_schema_importable : Bool)
    (paths components : PyObj) : Except PyExc PyObj :=
  match get_openapi_schema fieldset_schema_importable paths components with
  | .error e => .error e
  | .ok spec =>
    if hasattr_model_dump_json spec then .ok spec
    else .error (.attributeError (py_type_name spec) "model_dump_json")

/-! ### utils.py `unindent_text` (lines 177-192) -/

/-- Python whitespace (`str.isspace` / default `strip`), for the ASCII range
plus the common one-byte-and-NEL controls the source can meet in docstrings. -/
def isPySpace (c : Char) : Bool :=
  c == ' ' || c == '\t' || c == '\n' || c == '\r' || c == '\x0b' || c == '\x0c' ||
  c == '\x1c' || c == '\x1d' || c == '\x1e' || c == '\x1f' || c == '\x85' || c == '\xa0'

/-- Python `str.splitlines` line boundaries. -/
def isLineBoundary (c : Char) : Bool :=
  c == '\n' || c == '\r' || c == '\x0b' || c == '\x0c' ||
  c == '\x1c' || c == '\x1d' || c == '\x1e' || c == '\x85' ||
  c == '\u2028' || c == '\u2029'

/-- Prepend a character to the first line of a split result (starting a new
line when there is none). -/
def consHead (c : Char) : List (List Char) → List (List Char)
  | [] => [[c]]
  | l :: ls => (c :: l) :: ls

/-- Python `str.splitlines`: split at line boundaries (with `\r\n` counting as
one boundary), boundaries removed, no trailing empty line for a final
boundary, and `[]` on the empty string. -/
def pySplitLines : List Char → List (List Char)
  | [] => []
  | c :: rest =>
    if isLineBoundary c then
      if c = '\r' && rest.head? == some '\n' then [] :: pySplitLines rest.tail
      else [] :: pySplitLines rest
    else consHead c (pySplitLines rest)
termination_by l => l.length
decreasing_by
  all_goals simp +arith [List.length_tail]

/-- Python `str.rstrip()` on a line. -/
def pyRstrip (l : List Char) : List Char :=
  (l.reverse.dropWhile isPySpace).reverse

/-- `len(ln) - len(ln.lstrip())`: the leading-whitespace length of a line. -/
def leadingWS (l : List Char) : Nat :=
  (l.takeWhile isPySpace).length

/-- The loop guard `not lines[0] or lines[0].isspace()`: empty or all
whitespace. -/
def emptyish (l : List Char) : Bool :=
  l.all isPySpace

/-- Python `min` over a list of naturals (`none` on the empty list, where
Python would raise `ValueError`). -/
def pyMin : List Nat → Option Nat
  | [] => none
  | x :: xs =>
    match pyMin xs with
    | none => some x
    | some m => some (min x m)

/-- utils.py lines 181-186: `splitlines`, `rstrip` each line, then the two
`while` loops dropping leading and trailing blank lines. -/
def trimmedLines (ls0 : List (List Char)) : List (List Char) :=
  (((ls0.map pyRstrip).dropWhile emptyish).reverse.dropWhile emptyish).reverse

/-- utils.py line 188: `min(len(ln) - len(ln.lstrip()) for ln in lines if ln)
if lines else 0`.  When `lines` is nonempty its first line is never blank
(the `while` loops just removed blank lines), so the generator is nonempty
and the `none` fallback to `0` is unreachable there. -/
def computeIndent (ls : List (List Char)) : Nat :=
  match pyMin ((ls.filter (fun l => !l.isEmpty)).map leadingWS) with
  | some i => i
  | none => 0

/-- utils.py lines 181-191 on the split lines: trim, compute the indent, and
strip it from every line when nonzero (`if indent:`). -/
def unindentLines (ls0 : List (List Char)) : List (List Char) :=
  let ls := trimmedLines ls0
  let indent := computeIndent ls
  if indent != 0 then ls.map (fun l => l.drop indent) else ls

/-- "\n".join of the processed lines. -/
def joinNL : List (List Char) → List Char
  | [] => []
  | [l] => l
  | l :: ls => l ++ '\n' :: joinNL ls

/-- utils.py lines 177-192, `unindent_text`. -/
def unindent_text (text : String) : String :=
  String.mk (joinNL (unindentLines (pySplitLines text.data)))

/-- The normal form `unindent_text` establishes: every line rstripped and free
of line boundaries, no blank first or last line, and (when nonempty) some
line with zero leading indentation.  On such line lists `unindentLines` is
the identity and `joinNL` round-trips through `pySplitLines`. -/
def linesNormalized (L : List (List Char)) : Prop :=
  (∀ l ∈ L, pyRstrip l = l) ∧
  (∀ l ∈ L, ∀ c ∈ l, isLineBoundary c = false) ∧
  (∀ h, L.head? = some h → emptyish h = false) ∧
  (∀ h, L.getLast? = some h → emptyish h = false) ∧
  (L = [] ∨ ∃ l ∈ L, l ≠ [] ∧ leadingWS l = 0)

/-!
## Lemmas and claim theorems
-/

/-! ### Association-list (Python dict) lemmas -/

theorem dlookup_dinsert {α : Type} (d : List (String × α)) (k k' : String) (v : α) :
    dlookup (dinsert d k v) k' = if k = k' then some v else dlookup d k' := by
  induction d with
  | nil => simp [dinsert, dlookup]
  | cons kv rest ih =>
    obtain ⟨k0, v0⟩ := kv
    by_cases h0 : k0 = k
    · subst h0
      by_cases h1 : k0 = k' <;> simp [dinsert, dlookup, h1]
    · simp only [dinsert, if_neg h0]
      by_cases h1 : k0 = k'
      · subst h1
        have hkk : ¬k = k0 := fun he => h0 he.symm
        simp [dlookup, hkk]
      · simp [dlookup, h1, ih]

theorem dlookup_append {α : Type} (a b : List (String × α)) (k : String) :
    dlookup (a ++ b) k =
      match dlookup a k with
      | some v => some v
      | none => dlookup b k := by
  induction a with
  | nil => simp [dlookup]
  | cons kv rest ih =>
    by_cases h : kv.1 = k <;> simp [dlookup, h, ih]

theorem dlookup_dupdate {α : Type} (d src : List (String × α)) (k : String) :
    dlookup (dupdate d src) k =
      match dlookup src.reverse k with
      | some v => some v
      | none => dlookup d k := by
  induction src generalizing d with
  | nil => simp [dupdate, dlookup]
  | cons kv rest ih =>
    have step : dupdate d (kv :: rest) = dupdate (dinsert d kv.1 kv.2) rest := by
      simp [dupdate]
    rw [step, ih, List.reverse_cons, dlookup_append]
    by_cases h : kv.1 = k <;>
      cases hres : dlookup rest.reverse k <;>
        simp [dlookup_dinsert, h, dlookup, hres]

theorem dlookup_filter_key {α : Type} (d : List (String × α)) (p : String → Bool) (k : String) :
    dlookup (d.filter (fun kv => p kv.1)) k = if p k then dlookup d k else none := by
  induction d with
  | nil => simp [dlookup]
  | cons kv rest ih =>
    by_cases hp : p kv.1
    · by_cases h : kv.1 = k
      · subst h
        simp [List.filter_cons, hp, dlookup, ih]
      · simp [List.filter_cons, hp, dlookup, h, ih]
    · by_cases h : kv.1 = k
      · subst h
        simp [List.filter_cons, hp, dlookup, ih]
      · simp [List.filter_cons, hp, dlookup, h, ih]

theorem dlookup_dpop {α : Type} (d : List (String × α)) (a k : String) :
    dlookup (dpop d a) k = if k = a then none else dlookup d k := by
  have h := dlookup_filter_key d (fun s => s != a) k
  have hdp : dpop d a = d.filter (fun kv => (fun s => s != a) kv.1) := rfl
  rw [hdp, h]
  by_cases hk : k = a
  · subst hk
    simp
  · simp [bne_iff_ne, hk]

theorem dlookup_foldl_dpop {α : Type} (args : List String) (d : List (String × α)) (k : String) :
    dlookup (args.foldl (fun d a => dpop d a) d) k =
      if k ∈ args then none else dlookup d k := by
  induction args generalizing d with
  | nil => simp
  | cons a rest ih =>
    simp only [List.foldl_cons, ih, dlookup_dpop]
    by_cases h1 : k ∈ rest <;> by_cases h2 : k = a <;>
      simp [h1, h2, List.mem_cons]

theorem dlookup_none_of_not_mem_keys {α : Type} (d : List (String × α)) (k : String)
    (h : k ∉ d.map Prod.fst) : dlookup d k = none := by
  induction d with
  | nil => simp [dlookup]
  | cons kv rest ih =>
    simp only [List.map_cons, List.mem_cons] at h
    push_neg at h
    have : ¬kv.1 = k := fun he => h.1 he.symm
    simp [dlookup, this, ih h.2]

theorem dlookup_reverse_of_nodup {α : Type} (d : List (String × α))
    (h : (d.map Prod.fst).Nodup) (k : String) :
    dlookup d.reverse k = dlookup d k := by
  induction d with
  | nil => simp
  | cons kv rest ih =>
    simp only [List.map_cons, List.nodup_cons] at h
    rw [List.reverse_cons, dlookup_append, ih h.2]
    by_cases hk : kv.1 = k
    · subst hk
      rw [dlookup_none_of_not_mem_keys rest kv.1 h.1]
      simp [dlookup]
    · cases hres : dlookup rest k <;> simp [dlookup, hk, hres]

theorem dlookup_eq_some_of_mem_of_nodup {α : Type} (d : List (String × α))
    (hnd : (d.map Prod.fst).Nodup) (k : String) (v : α) (hmem : (k, v) ∈ d) :
    dlookup d k = some v := by
  induction d with
  | nil => simp at hmem
  | cons kv rest ih =>
    simp only [List.map_cons, List.nodup_cons] at hnd
    rcases List.mem_cons.mp hmem with h | h
    · subst h
      simp [dlookup]
    · have hk : kv.1 ≠ k := by
        intro he
        exact hnd.1 (he ▸ (List.mem_map.mpr ⟨(k, v), h, rfl⟩))
      simp [dlookup, hk, ih hnd.2 h]

/-! ### Claim C8: the apidocs JSON view always raises `AttributeError` -/

/-- Claim C8: every request to the `GET /openapi.json` view raises an
`AttributeError`: `get_openapi_schema` returns a plain dict and
`get_openapi_spec` unconditionally calls `model_dump_json` on it, a method
dicts do not have, so the view can never return a successful response.
(Stated with the optional `FieldsetGenerateJsonSchema` import having
succeeded, as in the package's own test environment; when that import fails
the view instead dies earlier with a `NameError` at openapi.py line 293.) -/
theorem get_openapi_spec_always_attribute_error (paths components : PyObj) :
    get_openapi_spec true paths components =
      .error (.attributeError "dict" "model_dump_json") := rfl

/-! ### Claim C4: dispatcher status code vs OpenAPI registration -/

theorem openapi_status_eq_dispatch (code : Nat) (bm : Option (List (PModel × Nat)))
    (m : PModel) :
    openapi_response_status_code code bm m =
      toString (dispatch_success_status_code code bm m) := by
  unfold openapi_response_status_code dispatch_success_status_code
  cases bm with
  | none => rfl
  | some l =>
    by_cases h : l.isEmpty
    · simp [h]
    · cases hm : mget l m <;> simp [h, hm]

theorem dlookup_add_response_titles_self (rs : List (String × List String))
    (key t : String) :
    ∃ ts, dlookup (add_response_titles rs key t) key = some ts ∧ t ∈ ts := by
  unfold add_response_titles
  cases h : dlookup rs key with
  | none => exact ⟨[t], by simp [dlookup_dinsert], by simp⟩
  | some ts0 => exact ⟨ts0 ++ [t], by simp [dlookup_dinsert], by simp⟩

theorem dlookup_add_response_titles_mono (rs : List (String × List String))
    (key t k x : String) (ts0 : List String)
    (h : dlookup rs k = some ts0) (hx : x ∈ ts0) :
    ∃ ts, dlookup (add_response_titles rs key t) k = some ts ∧ x ∈ ts := by
  unfold add_response_titles
  by_cases hk : key = k
  · subst hk
    rw [h]
    exact ⟨ts0 ++ [t], by simp [dlookup_dinsert], by simp [hx]⟩
  · cases h0 : dlookup rs key
    · exact ⟨ts0, by simp [dlookup_dinsert, hk, h], hx⟩
    · exact ⟨ts0, by simp [dlookup_dinsert, hk, h], hx⟩

theorem foldl_responses_preserves (code : Nat) (bm : Option (List (PModel × Nat)))
    (rms : List PModel) (rs : List (String × List String)) (k x : String)
    (ts0 : List String) (h : dlookup rs k = some ts0) (hx : x ∈ ts0) :
    ∃ ts,
      dlookup
        (rms.foldl
          (fun rs m =>
            add_response_titles rs (openapi_response_status_code code bm m) (model_title m))
          rs) k = some ts ∧ x ∈ ts := by
  induction rms generalizing rs ts0 with
  | nil => exact ⟨ts0, h, hx⟩
  | cons m0 rest ih =>
    obtain ⟨ts1, h1, hx1⟩ :=
      dlookup_add_response_titles_mono rs (openapi_response_status_code code bm m0)
        (model_title m0) k x ts0 h hx
    exact ih _ _ h1 hx1

theorem foldl_responses_registers (code : Nat) (bm : Option (List (PModel × Nat)))
    (rms : List PModel) (rs : List (String × List String)) (m : PModel)
    (hm : m ∈ rms) :
    ∃ ts,
      dlookup
        (rms.foldl
          (fun rs m =>
            add_response_titles rs (openapi_response_status_code code bm m) (model_title m))
          rs) (openapi_response_status_code code bm m) = some ts ∧ model_title m ∈ ts := by
  induction rms generalizing rs with
  | nil => cases hm
  | cons m0 rest ih =>
    rcases List.mem_cons.mp hm with he | he
    · subst he
      obtain ⟨ts1, h1, hx1⟩ :=
        dlookup_add_response_titles_self rs (openapi_response_status_code code bm m)
          (model_title m)
      exact foldl_responses_preserves code bm rest _ _ _ ts1 h1 hx1
    · exact ih _ he

/-- Claim C4: for every response model `M` of a handler, the status code the
dispatcher attaches to a successful response whose result is an instance of
`M` (the code mapped to `M` in `success_status_code_by_response_model`,
defaulting to `success_status_code`) equals the status code under which the
generated OpenAPI document registers `M`'s schema for that operation. -/
theorem dispatch_status_matches_openapi_registration (code : Nat)
    (bm : Option (List (PModel × Nat))) (rms : List PModel) (m : PModel)
    (hm : m ∈ rms) :
    openapi_response_status_code code bm m =
        toString (dispatch_success_status_code code bm m) ∧
      ∃ ts,
        dlookup (openapi_build_responses code bm rms)
            (toString (dispatch_success_status_code code bm m)) = some ts ∧
          model_title m ∈ ts := by
  refine ⟨openapi_status_eq_dispatch code bm m, ?_⟩
  rw [← openapi_status_eq_dispatch code bm m]
  unfold openapi_build_responses
  exact foldl_responses_registers code bm rms [] m hm

def mC4a : PModel := { name := "A" }

def mC4b : PModel := { name := "B" }

theorem dispatch_status_matches_openapi_registration_witness :
    mC4b ∈ [mC4a, mC4b] ∧
      (openapi_response_status_code 200 (some [(mC4b, 201)]) mC4b =
          toString (dispatch_success_status_code 200 (some [(mC4b, 201)]) mC4b) ∧
        ∃ ts,
          dlookup (openapi_build_responses 200 (some [(mC4b, 201)]) [mC4a, mC4b])
              (toString (dispatch_success_status_code 200 (some [(mC4b, 201)]) mC4b)) =
              some ts ∧
            model_title mC4b ∈ ts) :=
  ⟨by decide,
    dispatch_status_matches_openapi_registration 200 (some [(mC4b, 201)]) [mC4a, mC4b]
      mC4b (by decide)⟩

/-! ### Claims C1 and C5: request-model selection / 415 negotiation -/

theorem singleModelNeedsMultipart_true_of_multipart (ms : List PModel) :
    singleModelNeedsMultipart ms true = false := by
  cases ms with
  | nil => rfl
  | cons a t => cases t <;> simp [singleModelNeedsMultipart]

theorem select_415_iff (req : Req) (ms : List PModel) (hne : ms ≠ []) :
    (∃ msg, select_request_model req (some ms) = .error (415, msg)) ↔
      ((∀ m ∈ ms, model_has_uploaded_file_type m = true) ∧
        request_is_multipart req = false) := by
  have hne' : ms.isEmpty = false := by
    cases ms with
    | nil => exact absurd rfl hne
    | cons a t => rfl
  unfold select_request_model
  simp only [hne', Bool.false_eq_true, if_false]
  cases hmp : request_is_multipart req with
  | true =>
    rw [singleModelNeedsMultipart_true_of_multipart]
    cases ms with
    | nil => exact absurd rfl hne
    | cons a t =>
      have hfind : (a :: t).find?
          (fun m => !model_has_uploaded_file_type m || true) = some a := by
        simp [List.find?_cons]
      simp [hfind]
  | false =>
    by_cases hall : ∀ m ∈ ms, model_has_uploaded_file_type m = true
    · have hfind : ms.find? (fun m => !model_has_uploaded_file_type m || false) = none := by
        rw [List.find?_eq_none]
        intro x hx
        simp [hall x hx]
      cases ms with
      | nil => exact absurd rfl hne
      | cons a t =>
        cases t with
        | nil =>
          have : singleModelNeedsMultipart [a] false = true := by
            simp [singleModelNeedsMultipart, hall a (by simp)]
          simp [this, hall]
        | cons b t2 =>
          have hpre2 : singleModelNeedsMultipart (a :: b :: t2) false = false := rfl
          simp only [hpre2, Bool.false_eq_true, if_false, hfind]
          constructor
          · intro _
            exact ⟨hall, trivial⟩
          · intro _
            exact ⟨"Could not match request to a required model", rfl⟩
    · push_neg at hall
      obtain ⟨m0, hm0, hf0⟩ := hall
      have hf0' : model_has_uploaded_file_type m0 = false := by
        cases h : model_has_uploaded_file_type m0
        · rfl
        · exact absurd h hf0
      have hex : ∃ x ∈ ms, (!model_has_uploaded_file_type x || false) = true := by
        exact ⟨m0, hm0, by simp [hf0']⟩
      have hsome : (ms.find? (fun m => !model_has_uploaded_file_type m || false)).isSome := by
        rw [List.find?_isSome]
        exact hex
      have hpre : singleModelNeedsMultipart ms false = false := by
        cases ms with
        | nil => rfl
        | cons a t =>
          cases t with
          | nil =>
            have ha : m0 = a := by simpa using hm0
            simp [singleModelNeedsMultipart, ha ▸ hf0']
          | cons b t2 => rfl
      simp only [hpre, Bool.false_eq_true, if_false]
      cases hfind : ms.find? (fun m => !model_has_uploaded_file_type m || false) with
      | none => rw [hfind] at hsome; simp at hsome
      | some m1 =>
        constructor
        · rintro ⟨msg, hmsg⟩
          cases hmsg
        · rintro ⟨ha, -⟩
          exact absurd (ha m0 hm0) (by simp [hf0'])

theorem select_error_is_415 (req : Req) (fm : Option (List PModel)) (e : Nat × String)
    (h : select_request_model req fm = .error e) : e.1 = 415 := by
  unfold select_request_model at h
  cases fm with
  | none => cases h
  | some fms =>
    by_cases he : fms.isEmpty
    · simp [he] at h
    · simp only [he, Bool.false_eq_true, if_false] at h
      by_cases hs : singleModelNeedsMultipart fms (request_is_multipart req)
      · simp [hs] at h
        rw [← h]
      · simp only [hs, Bool.false_eq_true, if_false] at h
        cases hfind : fms.find?
            (fun m => !model_has_uploaded_file_type m || request_is_multipart req) with
        | some m => rw [hfind] at h; cases h
        | none => rw [hfind] at h; injection h with h'; rw [← h']

theorem select_ok_model (req : Req) (ms : List PModel) (rm : Option PModel)
    (h : select_request_model req (some ms) = .ok rm) :
    rm = ms.find? (fun m => !model_has_uploaded_file_type m || request_is_multipart req) := by
  unfold select_request_model at h
  by_cases he : ms.isEmpty
  · have hnil : ms = [] := by
      cases ms with
      | nil => rfl
      | cons a t => simp at he
    subst hnil
    simp at h
    simp [h]
  · simp only [he, Bool.false_eq_true, if_false] at h
    by_cases hs : singleModelNeedsMultipart ms (request_is_multipart req)
    · simp [hs] at h
    · simp only [hs, Bool.false_eq_true, if_false] at h
      cases hfind : ms.find?
          (fun m => !model_has_uploaded_file_type m || request_is_multipart req) with
      | some m => rw [hfind] at h; injection h with h'; exact h'.symm ▸ rfl
      | none => rw [hfind] at h; cases h

theorem build_request_args_error_code (req : Req) (rm : Option PModel) (e : Nat × String)
    (h : build_request_args req rm = .error e) : e.1 = 400 := by
  unfold build_request_args at h
  by_cases hmp : request_is_multipart req
  · simp [hmp] at h
  · simp only [hmp, Bool.false_eq_true, if_false] at h
    by_cases hj : req.is_json && req.content_length != 0
    · simp only [hj, if_true] at h
      cases hb : req.json_body with
      | none => rw [hb] at h; injection h with h'; rw [← h']
      | some body =>
        rw [hb] at h
        by_cases ht : jsonTruthy body
        · simp only [ht, if_true] at h
          cases body with
          | jdict entries => cases h
          | jother t tn => injection h with h'; rw [← h']
        · simp [ht] at h
    · simp [hj] at h

theorem gra_415_iff (req : Req) (kw : List (String × PyVal)) (mp : Bool)
    (rmp : Option String) (ms : List PModel) (hne : ms ≠ []) :
    (∃ msg, get_request_args req kw (some ms) mp rmp = .error (415, msg)) ↔
      ((∀ m ∈ ms, model_has_uploaded_file_type m = true) ∧
        request_is_multipart req = false) := by
  rw [← select_415_iff req ms hne]
  unfold get_request_args
  constructor
  · rintro ⟨msg, hmsg⟩
    split at hmsg
    next e heq =>
      injection hmsg with h'
      exact ⟨msg, by rw [heq, h']⟩
    next rm heq =>
      split at hmsg
      next e2 heq2 =>
        injection hmsg with h'
        have hc := build_request_args_error_code req rm e2 heq2
        rw [h'] at hc
        simp at hc
      next args heq2 => exact Except.noConfusion hmsg
  · rintro ⟨msg, hmsg⟩
    rw [hmsg]
    exact ⟨msg, rfl⟩

theorem gra_ok_model (req : Req) (kw : List (String × PyVal)) (ms : List PModel)
    (mp : Bool) (rmp : Option String) (a k : List (String × PyVal)) (rm : Option PModel)
    (h : get_request_args req kw (some ms) mp rmp = .ok (a, k, rm)) :
    rm = ms.find? (fun m => !model_has_uploaded_file_type m || request_is_multipart req) := by
  unfold get_request_args at h
  split at h
  next e heq => exact Except.noConfusion h
  next rm' heq =>
    split at h
    next e2 heq2 => exact Except.noConfusion h
    next args heq2 =>
      simp only [Except.ok.injEq, Prod.mk.injEq] at h
      rw [← h.2.2]
      exact select_ok_model req ms rm' heq

/-- Claim C1: for every handler whose request-body parameter yields a
non-empty candidate model list, `get_request_args` selects as request model
the first model in the list that either has no `UploadedFile`-typed field, or
has one while the incoming request's mimetype starts with
multipart/form-data; it aborts with HTTP 415 if and only if no candidate
satisfies this, i.e. every candidate model has an `UploadedFile`-typed field
and the request is not multipart/form-data. -/
theorem get_request_args_union_selection_and_415 (req : Req)
    (kw : List (String × PyVal)) (mp : Bool) (rmp : Option String)
    (ms : List PModel) (hne : ms ≠ []) :
    ((∃ msg, get_request_args req kw (some ms) mp rmp = .error (415, msg)) ↔
      ((∀ m ∈ ms, model_has_uploaded_file_type m = true) ∧
        request_is_multipart req = false)) ∧
    (∀ a k rm, get_request_args req kw (some ms) mp rmp = .ok (a, k, rm) →
      rm = ms.find? (fun m => !model_has_uploaded_file_type m || request_is_multipart req)) :=
  ⟨gra_415_iff req kw mp rmp ms hne,
    fun a k rm h => gra_ok_model req kw ms mp rmp a k rm h⟩

def mUpload : PModel := { name := "Upload", fields := [("file", FieldAnn.uploadedFile)] }

def mPlain : PModel := { name := "Plain", fields := [("x", FieldAnn.plain "str")] }

def reqEmpty : Req := { mimetype := "" }

theorem get_request_args_union_selection_and_415_witness :
    ([mUpload] ≠ ([] : List PModel)) ∧
      (((∃ msg, get_request_args reqEmpty [] (some [mUpload]) false none =
            .error (415, msg)) ↔
        ((∀ m ∈ [mUpload], model_has_uploaded_file_type m = true) ∧
          request_is_multipart reqEmpty = false)) ∧
      (∀ a k rm, get_request_args reqEmpty [] (some [mUpload]) false none = .ok (a, k, rm) →
        rm = [mUpload].find?
          (fun m => !model_has_uploaded_file_type m || request_is_multipart reqEmpty))) :=
  ⟨by decide,
    get_request_args_union_selection_and_415 reqEmpty [] false none [mUpload] (by decide)⟩

/-- Claim C5: the OpenAPI generator documents a request model's body with
content type multipart/form-data exactly when the model has an
`UploadedFile`-typed field, and with application/json otherwise — the same
`model_has_uploaded_file_type` predicate through which the dispatcher decides
whether a multipart request is required (aborting 415 on a non-multipart
request exactly for such a model). -/
theorem openapi_content_type_matches_dispatch (m : PModel) (req : Req)
    (kw : List (String × PyVal)) (mp : Bool) (rmp : Option String) :
    (openapi_request_content_type m = "multipart/form-data" ↔
      model_has_uploaded_file_type m = true) ∧
    (openapi_request_content_type m = "application/json" ↔
      model_has_uploaded_file_type m = false) ∧
    ((∃ msg, get_request_args req kw (some [m]) mp rmp = .error (415, msg)) ↔
      (model_has_uploaded_file_type m = true ∧ request_is_multipart req = false)) := by
  have hstr : ("application/json" : String) ≠ "multipart/form-data" := by decide
  refine ⟨?_, ?_, ?_⟩
  · cases h : model_has_uploaded_file_type m <;>
      simp [openapi_request_content_type, h, hstr]
  · cases h : model_has_uploaded_file_type m <;>
      simp [openapi_request_content_type, h, hstr]
  · rw [gra_415_iff req kw mp rmp [m] (by simp)]
    simp

/-! ### Claims C2, C3, C9: `get_annotated_models` -/

theorem view_model_args_singleton (anns : List (String × TypeAnn)) (k : String)
    (h : view_model_args anns = [k]) :
    ∃ ra, (k, ra) ∈ anns ∧
      (truthyA ra && (k != "return") &&
        ((isclassA ra && is_basemodel_subclass ra) ||
          is_union_of_model_sublclasses ra)) = true := by
  unfold view_model_args at h
  rcases hf : anns.filter (fun kv =>
      truthyA kv.2 && (kv.1 != "return") &&
        ((isclassA kv.2 && is_basemodel_subclass kv.2) ||
          is_union_of_model_sublclasses kv.2)) with _ | ⟨x, tl⟩
  · rw [hf] at h
    cases h
  · rw [hf] at h
    cases tl with
    | cons y t => cases h
    | nil =>
      simp only [List.map_cons, List.map_nil, List.cons.injEq, and_true] at h
      have hx : x ∈ anns.filter (fun kv =>
          truthyA kv.2 && (kv.1 != "return") &&
            ((isclassA kv.2 && is_basemodel_subclass kv.2) ||
              is_union_of_model_sublclasses kv.2)) := by
        rw [hf]
        exact List.mem_singleton_self x
      have hx' := List.mem_filter.mp hx
      refine ⟨x.2, ?_, ?_⟩
      · have : (k, x.2) = x := by
          rw [← h]
        rw [this]
        exact hx'.1
      · rw [h] at hx'
        exact hx'.2

theorem gam_eq_of_vma_nil (anns : List (String × TypeAnn))
    (h : view_model_args anns = []) :
    get_annotated_models anns = .ok (none, none, response_models_of anns) := by
  unfold get_annotated_models
  rw [h]

theorem gam_eq_of_vma_two (anns : List (String × TypeAnn)) (k k2 : String)
    (t : List String) (h : view_model_args anns = k :: k2 :: t) :
    get_annotated_models anns =
      .error "Too many model arguments specified. Could not determine which to map to request body" := by
  unfold get_annotated_models
  rw [h]

theorem gam_eq_of_vma_one (anns : List (String × TypeAnn)) (k : String)
    (h : view_model_args anns = [k]) :
    get_annotated_models anns =
      match dlookup anns k with
      | some ra =>
        if truthyA ra then
          .ok (some k, models_of_truthy_hint ra, response_models_of anns)
        else .ok (none, none, response_models_of anns)
      | none => .ok (none, none, response_models_of anns) := by
  unfold get_annotated_models
  rw [h]

/-- Claim C2: `get_annotated_models` designates as the request-body parameter
the unique non-`return` parameter whose truthy hint is a `BaseModel` subclass
or a union all of whose members are `BaseModel` subclasses; if more than one
parameter qualifies it raises an exception, and if none qualifies the
request-body parameter name and request-model list are both `None`. -/
theorem get_annotated_models_request_param (anns : List (String × TypeAnn))
    (hnd : (anns.map Prod.fst).Nodup) :
    ((view_model_args anns).length > 1 ↔ ∃ e, get_annotated_models anns = .error e) ∧
    (∀ k, view_model_args anns = [k] →
      get_annotated_models anns =
        .ok (some k,
          models_of_truthy_hint ((dlookup anns k).getD TypeAnn.noneLit),
          response_models_of anns)) ∧
    (view_model_args anns = [] →
      get_annotated_models anns = .ok (none, none, response_models_of anns)) := by
  refine ⟨?_, ?_, ?_⟩
  · constructor
    · intro hlen
      match hv : view_model_args anns with
      | [] => rw [hv] at hlen; simp at hlen
      | [k] => rw [hv] at hlen; simp at hlen
      | k :: k2 :: t => exact ⟨_, gam_eq_of_vma_two anns k k2 t hv⟩
    · rintro ⟨e, he⟩
      match hv : view_model_args anns with
      | [] =>
        rw [gam_eq_of_vma_nil anns hv] at he
        cases he
      | [k] =>
        rw [gam_eq_of_vma_one anns k hv] at he
        cases hl : dlookup anns k with
        | none => rw [hl] at he; cases he
        | some ra =>
          rw [hl] at he
          by_cases ht : truthyA ra
          · simp [ht] at he
          · simp [ht] at he
      | k :: k2 :: t => simp
  · intro k hv
    obtain ⟨ra, hmem, hq⟩ := view_model_args_singleton anns k hv
    have hlk : dlookup anns k = some ra :=
      dlookup_eq_some_of_mem_of_nodup anns hnd k ra hmem
    have ht : truthyA ra = true := by
      simp only [Bool.and_eq_true] at hq
      exact hq.1.1
    rw [gam_eq_of_vma_one anns k hv, hlk]
    simp [ht, hlk]
  · exact gam_eq_of_vma_nil anns

def annsC2 : List (String × TypeAnn) :=
  [("payload", TypeAnn.model mPlain), ("return", TypeAnn.model mUpload)]

theorem get_annotated_models_request_param_witness :
    (annsC2.map Prod.fst).Nodup ∧
      view_model_args annsC2 = ["payload"] ∧
      get_annotated_models annsC2 =
        .ok (some "payload",
          models_of_truthy_hint ((dlookup annsC2 "payload").getD TypeAnn.noneLit),
          response_models_of annsC2) :=
  ⟨by decide, rfl,
    (get_annotated_models_request_param annsC2 (by decide)).2.1 "payload" rfl⟩

theorem gam_ok_response (anns : List (String × TypeAnn))
    (n : Option String) (rq rs : Option (List PModel))
    (h : get_annotated_models anns = .ok (n, rq, rs)) :
    rs = response_models_of anns := by
  unfold get_annotated_models at h
  split at h
  · exact Except.noConfusion h
  · split at h
    · split at h <;>
        · simp only [Except.ok.injEq, Prod.mk.injEq] at h
          exact h.2.2.symm
    · simp only [Except.ok.injEq, Prod.mk.injEq] at h
      exact h.2.2.symm
  · simp only [Except.ok.injEq, Prod.mk.injEq] at h
    exact h.2.2.symm

theorem response_models_of_model (anns : List (String × TypeAnn)) (m : PModel)
    (h : dlookup anns "return" = some (.model m)) :
    response_models_of anns = some [m] := by
  unfold response_models_of
  rw [h]
  rfl

theorem response_models_of_union (anns : List (String × TypeAnn)) (args : List TypeAnn)
    (h : dlookup anns "return" = some (.union args)) :
    response_models_of anns = some (modelsOfUnionArgs args) := by
  unfold response_models_of
  rw [h]
  rfl

theorem response_models_of_absent (anns : List (String × TypeAnn))
    (h : dlookup anns "return" = none) :
    response_models_of anns = none := by
  unfold response_models_of
  rw [h]

theorem response_models_of_other (anns : List (String × TypeAnn)) (ra : TypeAnn)
    (h : dlookup anns "return" = some ra) (hu : is_union ra = false)
    (hm : ∀ m, ra ≠ .model m) :
    response_models_of anns = none := by
  unfold response_models_of
  rw [h]
  cases ra with
  | noneLit => rfl
  | model m => exact absurd rfl (hm m)
  | otherClass s => rfl
  | nonClass s => rfl
  | union args => simp [is_union] at hu

/-- Claim C3: `get_annotated_models` returns as response models the singleton
list of the return hint when it is a `BaseModel` subclass; the list, in
declaration order, of exactly those union members that are `BaseModel`
subclasses when the return hint is a union; and `None` when there is no
return hint or it is neither of these. -/
theorem get_annotated_models_response_models (anns : List (String × TypeAnn)) :
    ∀ n rq rs, get_annotated_models anns = .ok (n, rq, rs) →
      (∀ m, dlookup anns "return" = some (.model m) → rs = some [m]) ∧
      (∀ args, dlookup anns "return" = some (.union args) →
        rs = some (args.filterMap (fun a =>
          match a with
          | .model m => some m
          | _ => none))) ∧
      (dlookup anns "return" = none → rs = none) ∧
      (∀ ra, dlookup anns "return" = some ra → is_union ra = false →
        (∀ m, ra ≠ .model m) → rs = none) := by
  intro n rq rs h
  have hrs := gam_ok_response anns n rq rs h
  refine ⟨?_, ?_, ?_, ?_⟩
  · intro m hl
    rw [hrs, response_models_of_model anns m hl]
  · intro args hl
    rw [hrs, response_models_of_union anns args hl]
    rfl
  · intro hl
    rw [hrs, response_models_of_absent anns hl]
  · intro ra hl hu hm
    rw [hrs, response_models_of_other anns ra hl hu hm]

def mC3 : PModel := { name := "Out" }

def annsC3 : List (String × TypeAnn) :=
  [("return", TypeAnn.union [TypeAnn.model mC3, TypeAnn.nonClass "int"])]

theorem get_annotated_models_response_models_witness :
    get_annotated_models annsC3 = .ok (none, none, some [mC3]) ∧
      dlookup annsC3 "return" =
        some (TypeAnn.union [TypeAnn.model mC3, TypeAnn.nonClass "int"]) ∧
      (some [mC3] : Option (List PModel)) =
        some ([TypeAnn.model mC3, TypeAnn.nonClass "int"].filterMap (fun a =>
          match a with
          | TypeAnn.model m => some m
          | _ => none)) :=
  ⟨rfl, rfl,
    (get_annotated_models_response_models annsC3 none none (some [mC3]) rfl).2.1
      [TypeAnn.model mC3, TypeAnn.nonClass "int"] rfl⟩

theorem modelsOfUnionArgs_length (args : List TypeAnn)
    (h : args.all (fun v => isclassA v && is_basemodel_subclass v) = true) :
    (modelsOfUnionArgs args).length = args.length := by
  induction args with
  | nil => rfl
  | cons a t ih =>
    simp only [List.all_cons, Bool.and_eq_true] at h
    cases a with
    | model m =>
      simp only [modelsOfUnionArgs, List.filterMap_cons] at ih ⊢
      simp [ih h.2]
    | noneLit => simp [is_basemodel_subclass] at h
    | otherClass s => simp [is_basemodel_subclass] at h
    | nonClass s => simp [is_basemodel_subclass] at h
    | union args2 => simp [is_basemodel_subclass] at h

/-- Claim C9: for every handler on which `get_annotated_models` does not
raise, the returned request-model parameter name is non-`None` exactly when
the returned request-model list is a non-empty list of `BaseModel`
subclasses — the invariant on which the dispatch wrapper relies when binding
the validated model instance into the handler's kwargs. -/
theorem request_param_name_iff_models (anns : List (String × TypeAnn))
    (hnd : (anns.map Prod.fst).Nodup)
    (hwf : ∀ kv ∈ anns, hintWF kv.2 = true) :
    ∀ n rq rs, get_annotated_models anns = .ok (n, rq, rs) →
      (n ≠ none ↔ ∃ ms, rq = some ms ∧ ms ≠ []) := by
  intro n rq rs h
  match hv : view_model_args anns with
  | k :: k2 :: t =>
    rw [gam_eq_of_vma_two anns k k2 t hv] at h
    exact Except.noConfusion h
  | [] =>
    rw [gam_eq_of_vma_nil anns hv] at h
    simp only [Except.ok.injEq, Prod.mk.injEq] at h
    constructor
    · intro hn
      exact absurd h.1.symm hn
    · rintro ⟨ms, hms, -⟩
      rw [← h.2.1] at hms
      cases hms
  | [k] =>
    obtain ⟨ra, hmem, hq⟩ := view_model_args_singleton anns k hv
    have hlk : dlookup anns k = some ra :=
      dlookup_eq_some_of_mem_of_nodup anns hnd k ra hmem
    simp only [Bool.and_eq_true, Bool.or_eq_true] at hq
    have ht : truthyA ra = true := hq.1.1
    rw [gam_eq_of_vma_one anns k hv, hlk] at h
    simp only [ht, if_true, Except.ok.injEq, Prod.mk.injEq] at h
    obtain ⟨hn, hrq, hrs⟩ := h
    constructor
    · intro _
      rcases hq.2 with ⟨hc, hb⟩ | hun
      · cases ra with
        | model m =>
          refine ⟨[m], ?_, by simp⟩
          rw [← hrq]
          rfl
        | noneLit => simp [is_basemodel_subclass] at hb
        | otherClass s => simp [is_basemodel_subclass] at hb
        | nonClass s => simp [is_basemodel_subclass] at hb
        | union args2 => simp [is_basemodel_subclass] at hb
      · cases ra with
        | union args =>
          have hwfu := hwf (k, .union args) hmem
          simp [hintWF] at hwfu
          have hall : args.all (fun v => isclassA v && is_basemodel_subclass v) = true := by
            simpa [is_union_of_model_sublclasses, is_union, get_args_of] using hun
          have hlen := modelsOfUnionArgs_length args hall
          refine ⟨modelsOfUnionArgs args, ?_, ?_⟩
          · rw [← hrq]
            rfl
          · intro hnil
            rw [hnil] at hlen
            simp only [List.length_nil] at hlen
            omega
        | noneLit => simp [is_union_of_model_sublclasses, is_union] at hun
        | model m => simp [is_union_of_model_sublclasses, is_union] at hun
        | otherClass s => simp [is_union_of_model_sublclasses, is_union] at hun
        | nonClass s => simp [is_union_of_model_sublclasses, is_union] at hun
    · intro _
      rw [← hn]
      simp

def annsC9 : List (String × TypeAnn) :=
  [("payload", TypeAnn.union [TypeAnn.model mPlain, TypeAnn.model mUpload])]

theorem request_param_name_iff_models_witness :
    (annsC9.map Prod.fst).Nodup ∧ (∀ kv ∈ annsC9, hintWF kv.2 = true) ∧
      get_annotated_models annsC9 = .ok (some "payload", some [mPlain, mUpload], none) ∧
      ((some "payload" ≠ (none : Option String)) ↔
        ∃ ms, (some [mPlain, mUpload] : Option (List PModel)) = some ms ∧ ms ≠ []) :=
  ⟨by decide, by decide, rfl,
    request_param_name_iff_models annsC9 (by decide) (by decide)
      (some "payload") (some [mPlain, mUpload]) none rfl⟩

/-! ### Claim C6: path-parameter merging -/

theorem gra_ok_parts (req : Req) (kw : List (String × PyVal))
    (fm : Option (List PModel)) (mp : Bool) (rmp : Option String)
    (a k : List (String × PyVal)) (rm : Option PModel)
    (h : get_request_args req kw fm mp rmp = .ok (a, k, rm)) :
    ∃ args, build_request_args req rm = .ok args ∧
      a = (merge_path_args args kw req.url_rule mp).1 ∧
      k = (merge_path_args args kw req.url_rule mp).2 := by
  unfold get_request_args at h
  split at h
  next e heq => exact Except.noConfusion h
  next rm' heq =>
    split at h
    next e2 heq2 => exact Except.noConfusion h
    next args heq2 =>
      simp only [Except.ok.injEq, Prod.mk.injEq] at h
      obtain ⟨ha, hk, hrm⟩ := h
      exact ⟨args, hrm ▸ heq2, ha.symm, hk.symm⟩

theorem merge_path_args_false (args kw : List (String × PyVal))
    (url_rule : Option UrlRule) :
    merge_path_args args kw url_rule false = (args, kw) := by
  unfold merge_path_args
  cases url_rule <;> simp

theorem nodup_keys_filter (kw : List (String × PyVal)) (p : String × PyVal → Bool)
    (hnd : (kw.map Prod.fst).Nodup) : ((kw.filter p).map Prod.fst).Nodup := by
  have hs : List.Sublist ((kw.filter p).map Prod.fst) (kw.map Prod.fst) :=
    (List.filter_sublist kw).map Prod.fst
  exact hnd.sublist hs

theorem merge_path_args_true_lookups (args kw : List (String × PyVal)) (rule : UrlRule)
    (hnd : (kw.map Prod.fst).Nodup) :
    (∀ key v, key ∈ rule.arguments → dlookup kw key = some v →
      dlookup (merge_path_args args kw (some rule) true).1 key = some v) ∧
    (∀ key, key ∈ rule.arguments →
      dlookup (merge_path_args args kw (some rule) true).2 key = none) ∧
    (∀ key, key ∉ rule.arguments →
      dlookup (merge_path_args args kw (some rule) true).2 key = dlookup kw key) := by
  unfold merge_path_args
  by_cases hc : (true && !kw.isEmpty && !rule.arguments.isEmpty) = true
  · simp only [hc, if_true]
    refine ⟨?_, ?_, ?_⟩
    · intro key v hkey hkw
      have hfk := dlookup_filter_key kw (fun s => rule.arguments.contains s) key
      have hp : rule.arguments.contains key = true := by
        exact List.elem_iff.mpr hkey
      have hnd2 : ((kw.filter (fun kv => rule.arguments.contains kv.1)).map Prod.fst).Nodup :=
        nodup_keys_filter kw _ hnd
      rw [dlookup_dupdate,
        dlookup_reverse_of_nodup _ hnd2, hfk, hp, if_pos rfl, hkw]
    · intro key hkey
      rw [dlookup_foldl_dpop, if_pos hkey]
    · intro key hkey
      rw [dlookup_foldl_dpop, if_neg hkey]
  · simp only [hc, if_false]
    have hc' : kw.isEmpty = true ∨ rule.arguments.isEmpty = true := by
      by_cases h1 : kw.isEmpty
      · exact Or.inl h1
      · by_cases h2 : rule.arguments.isEmpty
        · exact Or.inr h2
        · exfalso
          apply hc
          simp [h1, h2]
    refine ⟨?_, ?_, ?_⟩
    · intro key v hkey hkw
      rcases hc' with h1 | h2
      · have : kw = [] := by
          cases kw with
          | nil => rfl
          | cons x t => simp at h1
        rw [this] at hkw
        cases hkw
      · have : rule.arguments = [] := by
          cases hr : rule.arguments with
          | nil => rfl
          | cons x t => rw [hr] at h2; simp at h2
        rw [this] at hkey
        cases hkey
    · intro key hkey
      rcases hc' with h1 | h2
      · have : kw = [] := by
          cases kw with
          | nil => rfl
          | cons x t => simp at h1
        rw [this]
        rfl
      · have : rule.arguments = [] := by
          cases hr : rule.arguments with
          | nil => rfl
          | cons x t => rw [hr] at h2; simp at h2
        rw [this] at hkey
        cases hkey
    · intro key hkey
      rfl

/-- Claim C6: when `merge_path_parameters` is true and the matched URL rule
has arguments, `get_request_args` copies each view kwarg whose name is a rule
argument into the request args dict and removes every rule-argument key from
the returned view kwargs, leaving all other view kwargs unchanged; when
`merge_path_parameters` is false, the view kwargs are returned unchanged and
the returned args are built from the request alone route (no path data). -/
theorem merge_path_parameters_frame (req : Req) (kw : List (String × PyVal))
    (fm : Option (List PModel)) (rmp : Option String)
    (hnd : (kw.map Prod.fst).Nodup) :
    (∀ rule, req.url_rule = some rule →
      ∀ a k rm, get_request_args req kw fm true rmp = .ok (a, k, rm) →
        (∀ key v, key ∈ rule.arguments → dlookup kw key = some v →
          dlookup a key = some v) ∧
        (∀ key, key ∈ rule.arguments → dlookup k key = none) ∧
        (∀ key, key ∉ rule.arguments → dlookup k key = dlookup kw key)) ∧
    (∀ a k rm, get_request_args req kw fm false rmp = .ok (a, k, rm) →
      k = kw ∧ build_request_args req rm = .ok a) := by
  constructor
  · intro rule hrule a k rm h
    obtain ⟨args, hb, ha, hk⟩ := gra_ok_parts req kw fm true rmp a k rm h
    rw [hrule] at ha hk
    obtain ⟨m1, m2, m3⟩ := merge_path_args_true_lookups args kw rule hnd
    refine ⟨?_, ?_, ?_⟩
    · intro key v hkey hkw
      rw [ha]
      exact m1 key v hkey hkw
    · intro key hkey
      rw [hk]
      exact m2 key hkey
    · intro key hkey
      rw [hk]
      exact m3 key hkey
  · intro a k rm h
    obtain ⟨args, hb, ha, hk⟩ := gra_ok_parts req kw fm false rmp a k rm h
    rw [merge_path_args_false args kw req.url_rule] at ha hk
    exact ⟨hk, by rw [ha]; exact hb⟩

def ruleC6 : UrlRule := { arguments := ["id"] }

def reqC6 : Req := { mimetype := "", url_rule := some ruleC6 }

def kwC6 : List (String × PyVal) := [("id", PyVal.str "5"), ("other", PyVal.str "x")]

theorem merge_path_parameters_frame_witness :
    (kwC6.map Prod.fst).Nodup ∧
      reqC6.url_rule = some ruleC6 ∧
      get_request_args reqC6 kwC6 none true none =
        .ok ([("id", PyVal.str "5")], [("other", PyVal.str "x")], none) ∧
      dlookup [("other", PyVal.str "x")] "id" = none :=
  ⟨by decide, rfl, rfl,
    ((merge_path_parameters_frame reqC6 kwC6 none none (by decide)).1 ruleC6 rfl
      [("id", PyVal.str "5")] [("other", PyVal.str "x")] none rfl).2.1 "id" (by decide)⟩

/-! ### Claim C10: `unindent_text` is idempotent -/

theorem dropWhile_eq_self_of_head {α : Type} (p : α → Bool) (l : List α)
    (h : ∀ a, l.head? = some a → p a = false) : l.dropWhile p = l := by
  cases l with
  | nil => rfl
  | cons a t => simp [List.dropWhile_cons, h a rfl]

theorem dropWhile_head_false {α : Type} (p : α → Bool) (l : List α) :
    l.dropWhile p = [] ∨ ∀ a, (l.dropWhile p).head? = some a → p a = false := by
  induction l with
  | nil => exact Or.inl rfl
  | cons x t ih =>
    rw [List.dropWhile_cons]
    by_cases hp : p x
    · rw [if_pos hp]
      exact ih
    · rw [if_neg hp]
      right
      intro a ha
      simp only [List.head?_cons, Option.some.injEq] at ha
      rw [← ha]
      exact Bool.not_eq_true _ |>.mp hp

theorem dropWhile_dropWhile {α : Type} (p : α → Bool) (l : List α) :
    (l.dropWhile p).dropWhile p = l.dropWhile p := by
  rcases dropWhile_head_false p l with h | h
  · rw [h]
    rfl
  · exact dropWhile_eq_self_of_head p _ h

theorem pyRstrip_idem (l : List Char) : pyRstrip (pyRstrip l) = pyRstrip l := by
  unfold pyRstrip
  rw [List.reverse_reverse, dropWhile_dropWhile]

theorem pyRstrip_eq_self_iff (l : List Char) :
    pyRstrip l = l ↔ ∀ c, l.getLast? = some c → isPySpace c = false := by
  unfold pyRstrip
  constructor
  · intro h c hc
    have hrev : l.reverse.head? = some c := by
      rw [List.head?_reverse]
      exact hc
    have h2 : l.reverse.dropWhile isPySpace = l.reverse := by
      have h3 := congrArg List.reverse h
      rwa [List.reverse_reverse] at h3
    cases hl : l.reverse with
    | nil =>
      rw [hl] at hrev
      cases hrev
    | cons a t =>
      rw [hl] at hrev h2
      injection hrev with hrev
      rw [List.dropWhile_cons] at h2
      by_cases hp : isPySpace a
      · rw [if_pos hp] at h2
        have hlen := congrArg List.length h2
        have hsub := (List.dropWhile_sublist (p := isPySpace) (l := t)).length_le
        simp only [List.length_cons] at hlen
        omega
      · rw [← hrev]
        exact Bool.not_eq_true _ |>.mp hp
  · intro h
    have h2 : l.reverse.dropWhile isPySpace = l.reverse := by
      apply dropWhile_eq_self_of_head
      intro a ha
      rw [List.head?_reverse] at ha
      exact h a ha
    rw [h2, List.reverse_reverse]

theorem pyRstrip_mem (l : List Char) (c : Char) (h : c ∈ pyRstrip l) : c ∈ l := by
  unfold pyRstrip at h
  rw [List.mem_reverse] at h
  have := (List.dropWhile_sublist (p := isPySpace) (l := l.reverse)).subset h
  rwa [List.mem_reverse] at this

theorem pyRstrip_drop (l : List Char) (n : Nat) (h : pyRstrip l = l) :
    pyRstrip (l.drop n) = l.drop n := by
  rw [pyRstrip_eq_self_iff] at h ⊢
  intro c hc
  cases hd : l.drop n with
  | nil =>
    rw [hd] at hc
    cases hc
  | cons a t =>
    have hne : l.drop n ≠ [] := by
      rw [hd]
      exact List.cons_ne_nil a t
    have hlast : (l.drop n).getLast? = l.getLast? := by
      conv_rhs => rw [← List.take_append_drop n l]
      exact (List.getLast?_append_of_ne_nil (List.take n l) hne).symm
    exact h c (hlast ▸ hc)

theorem emptyish_false_iff (l : List Char) :
    emptyish l = false ↔ ∃ c ∈ l, isPySpace c = false := by
  unfold emptyish
  constructor
  · intro h
    by_contra hc
    push_neg at hc
    have : l.all isPySpace = true := by
      rw [List.all_eq_true]
      intro x hx
      cases hxs : isPySpace x
      · exact absurd hxs (hc x hx)
      · rfl
    rw [this] at h
    cases h
  · rintro ⟨c, hc, hcs⟩ 
    cases hall : l.all isPySpace
    · rfl
    · rw [List.all_eq_true] at hall
      rw [hall c hc] at hcs
      cases hcs

theorem leadingWS_cons (c : Char) (t : List Char) :
    leadingWS (c :: t) = if isPySpace c then leadingWS t + 1 else 0 := by
  unfold leadingWS
  rw [List.takeWhile_cons]
  by_cases h : isPySpace c <;> simp [h]

theorem emptyish_cons_of_space (c : Char) (t : List Char) (hc : isPySpace c = true) :
    emptyish (c :: t) = emptyish t := by
  unfold emptyish
  simp [List.all_cons, hc]

theorem leadingWS_lt_length (l : List Char) (h : emptyish l = false) :
    leadingWS l < l.length := by
  induction l with
  | nil => simp [emptyish] at h
  | cons c t ih =>
    rw [leadingWS_cons]
    by_cases hc : isPySpace c
    · rw [if_pos hc]
      rw [emptyish_cons_of_space c t hc] at h
      have := ih h
      simp only [List.length_cons]
      omega
    · rw [if_neg hc]
      simp

theorem emptyish_drop (l : List Char) (n : Nat) (hn : n ≤ leadingWS l)
    (h : emptyish l = false) : emptyish (l.drop n) = false := by
  induction n generalizing l with
  | zero => simpa using h
  | succ k ih =>
    cases l with
    | nil => simp [leadingWS] at hn
    | cons c t =>
      rw [leadingWS_cons] at hn
      by_cases hc : isPySpace c
      · rw [if_pos hc] at hn
        rw [emptyish_cons_of_space c t hc] at h
        rw [List.drop_succ_cons]
        exact ih t (by omega) h
      · rw [if_neg hc] at hn
        omega

theorem leadingWS_drop (l : List Char) (n : Nat) (hn : n ≤ leadingWS l) :
    leadingWS (l.drop n) = leadingWS l - n := by
  induction n generalizing l with
  | zero => simp
  | succ k ih =>
    cases l with
    | nil => simp [leadingWS] at hn
    | cons c t =>
      rw [leadingWS_cons] at hn ⊢
      by_cases hc : isPySpace c
      · rw [if_pos hc] at hn ⊢
        rw [List.drop_succ_cons, ih t (by omega)]
        omega
      · rw [if_neg hc] at hn
        omega

theorem pyMin_mem (xs : List Nat) (m : Nat) (h : pyMin xs = some m) : m ∈ xs := by
  induction xs generalizing m with
  | nil => cases h
  | cons x t ih =>
    unfold pyMin at h
    cases hm : pyMin t with
    | none =>
      rw [hm] at h
      injection h with h
      simp [← h]
    | some m2 =>
      rw [hm] at h
      injection h with h
      rcases le_or_lt x m2 with hle | hlt
      · rw [← h, Nat.min_eq_left hle]
        simp
      · rw [← h, Nat.min_eq_right (Nat.le_of_lt hlt)]
        exact List.mem_cons_of_mem x (ih m2 hm)

theorem pyMin_le (xs : List Nat) (m : Nat) (h : pyMin xs = some m) :
    ∀ x ∈ xs, m ≤ x := by
  induction xs generalizing m with
  | nil => intro x hx; cases hx
  | cons x t ih =>
    unfold pyMin at h
    cases hm : pyMin t with
    | none =>
      rw [hm] at h
      injection h with h
      have ht : t = [] := by
        cases t with
        | nil => rfl
        | cons y u =>
          exfalso
          unfold pyMin at hm
          cases hy : pyMin u <;> rw [hy] at hm <;> cases hm
      subst ht
      intro y hy
      have hyx : y = x := by simpa using hy
      omega
    | some m2 =>
      rw [hm] at h
      injection h with h
      intro y hy
      rcases List.mem_cons.mp hy with hyx | hyt
      · rw [hyx, ← h]
        exact Nat.min_le_left _ _
      · have := ih m2 hm y hyt
        rw [← h]
        omega

theorem pyMin_isSome (xs : List Nat) (h : xs ≠ []) : ∃ m, pyMin xs = some m := by
  cases xs with
  | nil => exact absurd rfl h
  | cons x t =>
    unfold pyMin
    cases hm : pyMin t with
    | none => exact ⟨x, rfl⟩
    | some m2 => exact ⟨min x m2, rfl⟩

theorem pySplitLines_nil : pySplitLines [] = [] := by
  rw [pySplitLines.eq_def]

theorem pySplitLines_boundary (c : Char) (rest : List Char)
    (hb : isLineBoundary c = true)
    (hcr : (c = '\r' && rest.head? == some '\n') = false) :
    pySplitLines (c :: rest) = [] :: pySplitLines rest := by
  rw [pySplitLines.eq_def]
  simp [hb, hcr]

theorem pySplitLines_not_boundary (c : Char) (rest : List Char)
    (h : isLineBoundary c = false) :
    pySplitLines (c :: rest) = consHead c (pySplitLines rest) := by
  rw [pySplitLines.eq_def]
  simp [h]

theorem pySplitLines_nl (rest : List Char) :
    pySplitLines ('\n' :: rest) = [] :: pySplitLines rest := by
  apply pySplitLines_boundary
  · decide
  · have h : decide ('\n' = '\r') = false := by decide
    simp [h]

theorem pySplitLines_boundary_free (s : List Char) :
    ∀ l ∈ pySplitLines s, ∀ c ∈ l, isLineBoundary c = false := by
  induction s using pySplitLines.induct with
  | case1 =>
    intro l hl
    rw [pySplitLines_nil] at hl
    cases hl
  | case2 c rest hb hcr ih =>
    intro l hl
    rw [pySplitLines.eq_def] at hl
    simp only [hb, hcr, if_true] at hl
    rcases List.mem_cons.mp hl with rfl | hl2
    · intro c2 hc2
      cases hc2
    · exact ih l hl2
  | case3 c rest hb hcr ih =>
    intro l hl
    have hcr' : (c = '\r' && rest.head? == some '\n') = false :=
      Bool.not_eq_true _ |>.mp hcr
    rw [pySplitLines_boundary c rest hb hcr'] at hl
    rcases List.mem_cons.mp hl with rfl | hl2
    · intro c2 hc2
      cases hc2
    · exact ih l hl2
  | case4 c rest hb ih =>
    intro l hl
    have hbf : isLineBoundary c = false := Bool.not_eq_true _ |>.mp hb
    rw [pySplitLines_not_boundary c rest hbf] at hl
    cases hsp : pySplitLines rest with
    | nil =>
      rw [hsp] at hl
      simp only [consHead] at hl
      rcases List.mem_singleton.mp hl with rfl
      intro c2 hc2
      rcases List.mem_singleton.mp hc2 with rfl
      exact hbf
    | cons l0 ls =>
      rw [hsp] at hl
      simp only [consHead] at hl
      rcases List.mem_cons.mp hl with rfl | hl2
      · intro c2 hc2
        rcases List.mem_cons.mp hc2 with h | h
        · rw [h]
          exact hbf
        · exact ih l0 (by rw [hsp]; exact List.mem_cons_self _ _) c2 h
      · exact ih l (by rw [hsp]; exact List.mem_cons_of_mem _ hl2)

theorem pySplitLines_single (l : List Char) (hne : l ≠ [])
    (hbf : ∀ c ∈ l, isLineBoundary c = false) :
    pySplitLines l = [l] := by
  induction l with
  | nil => exact absurd rfl hne
  | cons c t ih =>
    have hc : isLineBoundary c = false := hbf c (List.mem_cons_self c t)
    rw [pySplitLines_not_boundary c t hc]
    cases t with
    | nil =>
      rw [pySplitLines_nil]
      rfl
    | cons c2 t2 =>
      rw [ih (List.cons_ne_nil c2 t2) (fun x hx => hbf x (List.mem_cons_of_mem c hx))]
      rfl

theorem pySplitLines_append_nl (l s : List Char)
    (hbf : ∀ c ∈ l, isLineBoundary c = false) :
    pySplitLines (l ++ '\n' :: s) = l :: pySplitLines s := by
  induction l with
  | nil =>
    rw [List.nil_append, pySplitLines_nl]
  | cons c t ih =>
    have hc : isLineBoundary c = false := hbf c (List.mem_cons_self c t)
    rw [List.cons_append, pySplitLines_not_boundary c _ hc,
      ih (fun x hx => hbf x (List.mem_cons_of_mem c hx))]
    rfl

theorem pySplitLines_joinNL (L : List (List Char))
    (hbf : ∀ l ∈ L, ∀ c ∈ l, isLineBoundary c = false)
    (hlast : ∀ h, L.getLast? = some h → h ≠ []) :
    pySplitLines (joinNL L) = L := by
  induction L with
  | nil => exact pySplitLines_nil
  | cons l ls ih =>
    cases ls with
    | nil =>
      have hne : l ≠ [] := hlast l (by simp)
      exact pySplitLines_single l hne (hbf l (by simp))
    | cons m ms =>
      rw [show joinNL (l :: m :: ms) = l ++ '\n' :: joinNL (m :: ms) from rfl]
      rw [pySplitLines_append_nl l _ (hbf l (by simp))]
      rw [ih (fun x hx => hbf x (List.mem_cons_of_mem l hx))
        (fun h hh => hlast h (by rwa [List.getLast?_cons_cons]))]

theorem unindentLines_eq (ls0 : List (List Char)) :
    unindentLines ls0 =
      if computeIndent (trimmedLines ls0) != 0 then
        (trimmedLines ls0).map (fun l => l.drop (computeIndent (trimmedLines ls0)))
      else trimmedLines ls0 := rfl

theorem trimmedLines_mem (ls0 : List (List Char)) (l : List Char)
    (h : l ∈ trimmedLines ls0) : l ∈ ls0.map pyRstrip := by
  unfold trimmedLines at h
  rw [List.mem_reverse] at h
  have h2 := (List.dropWhile_sublist
    (p := emptyish) (l := ((ls0.map pyRstrip).dropWhile emptyish).reverse)).subset h
  rw [List.mem_reverse] at h2
  exact (List.dropWhile_sublist (p := emptyish) (l := ls0.map pyRstrip)).subset h2

theorem trimmedLines_head (ls0 : List (List Char)) :
    ∀ h, (trimmedLines ls0).head? = some h → emptyish h = false := by
  intro h hh
  unfold trimmedLines at hh
  obtain ⟨t, ht⟩ := List.dropWhile_suffix
    (l := ((ls0.map pyRstrip).dropWhile emptyish).reverse) (p := emptyish)
  have hdecomp : (ls0.map pyRstrip).dropWhile emptyish =
      (((ls0.map pyRstrip).dropWhile emptyish).reverse.dropWhile emptyish).reverse ++
        t.reverse := by
    have h2 := congrArg List.reverse ht
    rw [List.reverse_append, List.reverse_reverse] at h2
    exact h2.symm
  cases hc : (((ls0.map pyRstrip).dropWhile emptyish).reverse.dropWhile emptyish).reverse with
  | nil =>
    rw [hc] at hh
    cases hh
  | cons a u =>
    rw [hc] at hh
    simp only [List.head?_cons, Option.some.injEq] at hh
    have hh2 : ((ls0.map pyRstrip).dropWhile emptyish).head? = some h := by
      rw [hdecomp, hc, ← hh]
      rfl
    rcases dropWhile_head_false emptyish (ls0.map pyRstrip) with hnil | hf
    · rw [hnil] at hh2
      cases hh2
    · exact hf h hh2

theorem trimmedLines_last (ls0 : List (List Char)) :
    ∀ h, (trimmedLines ls0).getLast? = some h → emptyish h = false := by
  intro h hh
  unfold trimmedLines at hh
  rw [List.getLast?_reverse] at hh
  rcases dropWhile_head_false emptyish
      ((ls0.map pyRstrip).dropWhile emptyish).reverse with hnil | hf
  · rw [hnil] at hh
    cases hh
  · exact hf h hh

theorem emptyish_false_of_rstripped (l : List Char) (hr : pyRstrip l = l)
    (hne : l ≠ []) : emptyish l = false := by
  rw [pyRstrip_eq_self_iff] at hr
  cases hl : l.getLast? with
  | none =>
    rw [List.getLast?_eq_none_iff] at hl
    exact absurd hl hne
  | some c =>
    rw [emptyish_false_iff]
    exact ⟨c, List.mem_of_getLast?_eq_some hl, hr c hl⟩

theorem computeIndent_spec (ls : List (List Char)) (i : Nat)
    (h : computeIndent ls = i) (hi : i ≠ 0) :
    (∀ l ∈ ls, l ≠ [] → i ≤ leadingWS l) ∧ (∃ l ∈ ls, l ≠ [] ∧ leadingWS l = i) := by
  unfold computeIndent at h
  cases hm : pyMin ((ls.filter (fun l => !l.isEmpty)).map leadingWS) with
  | none =>
    rw [hm] at h
    have h0 : (0 : Nat) = i := h
    exact absurd h0.symm hi
  | some m =>
    rw [hm] at h
    have hmi : m = i := h
    subst hmi
    constructor
    · intro l hl hlne
      apply pyMin_le _ m hm
      rw [List.mem_map]
      exact ⟨l, List.mem_filter.mpr ⟨hl, by simp [hlne]⟩, rfl⟩
    · have hmm := pyMin_mem _ m hm
      obtain ⟨l, hl, hlw⟩ := List.mem_map.mp hmm
      rw [List.mem_filter] at hl
      exact ⟨l, hl.1, by simpa using hl.2, hlw⟩

theorem unindentLines_normalized (ls0 : List (List Char))
    (hbf : ∀ l ∈ ls0, ∀ c ∈ l, isLineBoundary c = false) :
    linesNormalized (unindentLines ls0) := by
  have hmem : ∀ l ∈ trimmedLines ls0, l ∈ ls0.map pyRstrip :=
    fun l hl => trimmedLines_mem ls0 l hl
  have hrstrip : ∀ l ∈ trimmedLines ls0, pyRstrip l = l := by
    intro l hl
    obtain ⟨l0, hl0, rfl⟩ := List.mem_map.mp (hmem l hl)
    exact pyRstrip_idem l0
  have hbf3 : ∀ l ∈ trimmedLines ls0, ∀ c ∈ l, isLineBoundary c = false := by
    intro l hl c hc
    obtain ⟨l0, hl0, rfl⟩ := List.mem_map.mp (hmem l hl)
    exact hbf l0 hl0 c (pyRstrip_mem l0 c hc)
  have hhead := trimmedLines_head ls0
  have hlast := trimmedLines_last ls0
  rw [unindentLines_eq]
  by_cases hind : computeIndent (trimmedLines ls0) = 0
  · rw [hind]
    simp only [bne_self_eq_false, if_false]
    refine ⟨hrstrip, hbf3, hhead, hlast, ?_⟩
    cases hls : trimmedLines ls0 with
    | nil => exact Or.inl rfl
    | cons a t =>
      right
      have hae : emptyish a = false := hhead a (by rw [hls]; rfl)
      have hane : a ≠ [] := by
        intro he
        rw [he] at hae
        simp [emptyish] at hae
      have hamem : a ∈ (trimmedLines ls0).filter (fun l => !l.isEmpty) := by
        rw [List.mem_filter, hls]
        exact ⟨List.mem_cons_self a t, by simp [hane]⟩
      have hfilter_ne : ((trimmedLines ls0).filter (fun l => !l.isEmpty)).map leadingWS ≠ [] := by
        intro hfe
        have h2 : leadingWS a ∈ ((trimmedLines ls0).filter
            (fun l => !l.isEmpty)).map leadingWS := List.mem_map.mpr ⟨a, hamem, rfl⟩
        rw [hfe] at h2
        cases h2
      obtain ⟨m, hm⟩ := pyMin_isSome _ hfilter_ne
      have hci : computeIndent (trimmedLines ls0) = m := by
        unfold computeIndent
        rw [hm]
      have hm0 : m = 0 := by
        rw [← hci, hind]
      obtain ⟨l, hl, hlw⟩ := List.mem_map.mp (pyMin_mem _ m hm)
      rw [List.mem_filter] at hl
      refine ⟨l, by rw [← hls]; exact hl.1, by simpa using hl.2, ?_⟩
      rw [hlw, hm0]
  · rw [if_pos (by simpa using hind)]
    obtain ⟨hle, l0, hl0mem, hl0ne, hl0w⟩ :=
      computeIndent_spec (trimmedLines ls0) (computeIndent (trimmedLines ls0)) rfl hind
    refine ⟨?_, ?_, ?_, ?_, ?_⟩
    · intro l hl
      obtain ⟨l3, hl3, rfl⟩ := List.mem_map.mp hl
      exact pyRstrip_drop l3 _ (hrstrip l3 hl3)
    · intro l hl c hc
      obtain ⟨l3, hl3, rfl⟩ := List.mem_map.mp hl
      exact hbf3 l3 hl3 c (List.drop_subset _ l3 hc)
    · intro h hh
      rw [List.head?_map] at hh
      cases hc : (trimmedLines ls0).head? with
      | none =>
        rw [hc] at hh
        cases hh
      | some h3 =>
        rw [hc] at hh
        simp only [Option.map_some', Option.some.injEq] at hh
        have he3 : emptyish h3 = false := hhead h3 hc
        have hne3 : h3 ≠ [] := by
          intro he
          rw [he] at he3
          simp [emptyish] at he3
        have hmem3 : h3 ∈ trimmedLines ls0 := by
          cases hls : trimmedLines ls0 with
          | nil =>
            rw [hls] at hc
            cases hc
          | cons a t =>
            rw [hls] at hc
            simp only [List.head?_cons, Option.some.injEq] at hc
            rw [← hc]
            exact List.mem_cons_self a t
        rw [← hh]
        exact emptyish_drop h3 _ (hle h3 hmem3 hne3) he3
    · intro h hh
      rw [List.getLast?_map] at hh
      cases hc : (trimmedLines ls0).getLast? with
      | none =>
        rw [hc] at hh
        cases hh
      | some h3 =>
        rw [hc] at hh
        simp only [Option.map_some', Option.some.injEq] at hh
        have he3 : emptyish h3 = false := hlast h3 hc
        have hne3 : h3 ≠ [] := by
          intro he
          rw [he] at he3
          simp [emptyish] at he3
        have hmem3 : h3 ∈ trimmedLines ls0 := List.mem_of_getLast?_eq_some hc
        rw [← hh]
        exact emptyish_drop h3 _ (hle h3 hmem3 hne3) he3
    · right
      refine ⟨l0.drop (computeIndent (trimmedLines ls0)), List.mem_map.mpr ⟨l0, hl0mem, rfl⟩, ?_, ?_⟩
      · have hemp : emptyish l0 = false :=
          emptyish_false_of_rstripped l0 (hrstrip l0 hl0mem) hl0ne
        have hlt := leadingWS_lt_length l0 hemp
        intro hdrop
        have hlen := congrArg List.length hdrop
        rw [List.length_drop] at hlen
        simp only [List.length_nil] at hlen
        omega
      · rw [leadingWS_drop l0 _ (by rw [hl0w]), hl0w]
        omega

theorem trimmedLines_of_normalized (L : List (List Char)) (hn : linesNormalized L) :
    trimmedLines L = L := by
  obtain ⟨hr, hbf, hh, hl, hz⟩ := hn
  unfold trimmedLines
  have h1 : L.map pyRstrip = L := by
    have h0 := List.map_congr_left (f := pyRstrip) (g := id) (l := L) hr
    rwa [List.map_id] at h0
  rw [h1]
  have h2 : L.dropWhile emptyish = L := dropWhile_eq_self_of_head emptyish L hh
  rw [h2]
  have h3 : L.reverse.dropWhile emptyish = L.reverse := by
    apply dropWhile_eq_self_of_head
    intro a ha
    rw [List.head?_reverse] at ha
    exact hl a ha
  rw [h3, List.reverse_reverse]

theorem computeIndent_of_normalized (L : List (List Char)) (hn : linesNormalized L) :
    computeIndent L = 0 := by
  obtain ⟨hr, hbf, hh, hl, hz⟩ := hn
  rcases hz with rfl | ⟨l, hlmem, hlne, hlw⟩
  · rfl
  · unfold computeIndent
    have hmemmap : (0 : Nat) ∈ (L.filter (fun l => !l.isEmpty)).map leadingWS := by
      rw [List.mem_map]
      exact ⟨l, List.mem_filter.mpr ⟨hlmem, by simp [hlne]⟩, hlw⟩
    have hne : (L.filter (fun l => !l.isEmpty)).map leadingWS ≠ [] := by
      intro he
      rw [he] at hmemmap
      cases hmemmap
    obtain ⟨m, hm⟩ := pyMin_isSome _ hne
    rw [hm]
    show m = 0
    have := pyMin_le _ m hm 0 hmemmap
    omega

theorem unindentLines_of_normalized (L : List (List Char)) (hn : linesNormalized L) :
    unindentLines L = L := by
  rw [unindentLines_eq, trimmedLines_of_normalized L hn,
    computeIndent_of_normalized L hn]
  simp

/-- Claim C10: `unindent_text` is idempotent: for every string `s`,
`unindent_text (unindent_text s) = unindent_text s`, because its output has
no leading or trailing blank lines and, when non-empty, at least one line
with zero leading indentation. -/
theorem unindent_text_idempotent (s : String) :
    unindent_text (unindent_text s) = unindent_text s := by
  unfold unindent_text
  have hnorm : linesNormalized (unindentLines (pySplitLines s.data)) :=
    unindentLines_normalized (pySplitLines s.data) (pySplitLines_boundary_free s.data)
  obtain ⟨hr, hbf, hh, hl, hz⟩ := hnorm
  have hdata : (String.mk (joinNL (unindentLines (pySplitLines s.data)))).data =
      joinNL (unindentLines (pySplitLines s.data)) := rfl
  rw [hdata]
  rw [pySplitLines_joinNL _ hbf ?hlast]
  case hlast =>
    intro h hh2 he
    have hemp := hl h hh2
    rw [he] at hemp
    simp [emptyish] at hemp
  rw [unindentLines_of_normalized _ ⟨hr, hbf, hh, hl, hz⟩]
